import Mathlib

/-!
Verification of the modulir build orchestrator core: the round-based job
pool (`pool.go`), the modification-time change tracker (`context` package:
`Context.Changed`, `Context.exists`, `FileModTimeCache.changed`), and the
filesystem watch/debounce loop (`watch.go`: `watchChanges`,
`buildWithinSameFileQuiesce`, `shouldRebuild`).

The embedding is shallow: Go methods become pure Lean functions, the
mutable pool becomes explicit state passing, Go `panic` in the modelled
code becomes `Option.none`, a Go `error` value is represented by its
message string (`Option String` for a nullable error), `time.Time` and
`time.Duration` become `Int` (milliseconds), and the nondeterministic
worker interleaving of a round is modelled by running the submitted jobs
in submission order, which determines the result collections up to the
order guarantees the claims actually make (cardinalities, memberships,
and per-job fields are interleaving independent because every job is
finished exactly once and appended exactly once per collection).
-/

namespace Modulir

/-! ## Job pool (pool.go) -/

/-- String constant for the structured panic error message produced in
`Pool.workJob`: `xerrors.Errorf("job panicked: %w", err)` respectively
`xerrors.Errorf("job panicked: %v", r)`. -/
def jobPanickedTag : String := "job panicked: "

/-- Behavior of a single invocation of a `Job.F` work function
`func() (bool, error)`: it either returns normally with `(didWork, err)`,
panics with an `error` value (represented by its message), or panics with
a plain non-error value (represented by its `%v` formatting). -/
inductive JobRun where
  | ret (didWork : Bool) (err : Option String)
  | panicErr (msg : String)
  | panicStr (msg : String)
deriving DecidableEq, Repr

/-- Model of a `Job.F` work function: its observable run behavior plus the
wall-clock time it takes (`time.Since(start)` recorded into
`Job.Duration`). -/
structure JobF where
  run : JobRun
  elapsed : Int
deriving DecidableEq, Repr

/-- Model of `Job` from pool.go: duration, error, executed flag, work
function and name. -/
structure Job where
  duration : Int
  err : Option String
  executed : Bool
  f : JobF
  name : String
deriving DecidableEq, Repr

/-- Result of calling `Job.Error()`: the method panics when `Err` is nil
and returns the error message otherwise. -/
inductive ErrorCall where
  | panicked
  | message (s : String)
deriving DecidableEq, Repr

/-- Model of `Job.Error()` from pool.go. -/
def Job.errorCall (j : Job) : ErrorCall :=
  match j.err with
  | none => .panicked
  | some e => .message e

/-- Model of `NewJob` from pool.go: a fresh job with only `Name` and `F`
set (duration zero, nil error, executed false). -/
def NewJob (name : String) (f : JobF) : Job :=
  ⟨0, none, false, f, name⟩

/-- Model of `Pool` from pool.go, keeping the fields the claims are about:
the three per-round result collections and the round lifecycle flag.
Channels, the colorizer, the logger, the wait group and the per-worker
debug statistics are omitted: they carry no data any claim mentions. -/
structure Pool where
  jobsAll : List Job
  jobsErrored : List Job
  jobsExecuted : List Job
  roundStarted : Bool
  roundNum : Int
deriving DecidableEq, Repr

/-- Model of `NewPool` from pool.go: result collections empty (nil) and no
round open. -/
def newPool : Pool := ⟨[], [], [], false, 0⟩

/-- Model of `Pool.StartRound` from pool.go. The Go method panics when a
round is already open (`roundStarted`); the panic is modelled as `none`.
Otherwise all result collections are reset to nil and the round is marked
open. -/
def Pool.startRound (p : Pool) (roundNum : Int) : Option Pool :=
  if p.roundStarted then none
  else some ⟨[], [], [], true, roundNum⟩

/-- Model of the error computed by the deferred recover block of
`Pool.workJob`: a normal return passes its error through; a panic with an
error value wraps its message, a panic with a plain value wraps its
formatting. -/
def jobErrOf (f : JobF) : Option String :=
  match f.run with
  | .ret _ e => e
  | .panicErr m => some (jobPanickedTag ++ m)
  | .panicStr m => some (jobPanickedTag ++ m)

/-- Model of the `executed` flag as seen by the deferred block of
`Pool.workJob`: on a normal return it is the returned `didWork`; on a
panic the assignment `executed, jobErr = job.F()` never completes, so
`executed` keeps its zero value `false`. -/
def jobExecutedOf (f : JobF) : Bool :=
  match f.run with
  | .ret d _ => d
  | .panicErr _ => false
  | .panicStr _ => false

/-- Model of `Pool.setWorkerJobFinished` from pool.go: when `err` is
non-nil the job record gets that error and is appended to `JobsErrored`;
when `executed` is true the job record is marked executed and appended to
`JobsExecuted`. Returns the updated job record together with the updated
pool (in Go the job is mutated through a pointer shared with `JobsAll`).
The per-worker debug counters are omitted. -/
def Pool.setWorkerJobFinished (p : Pool) (job : Job) (executed : Bool)
    (err : Option String) : Job × Pool :=
  let j1 := if err.isSome then { job with err := err } else job
  let j2 := if executed then { j1 with executed := true } else j1
  (j2,
    { p with
      jobsErrored := if err.isSome then p.jobsErrored ++ [j2] else p.jobsErrored,
      jobsExecuted := if executed then p.jobsExecuted ++ [j2] else p.jobsExecuted })

/-- Model of `Pool.workJob` from pool.go: runs the work function, records
`Duration` in the deferred block regardless of outcome, converts a panic
into a structured error, and hands the result to `setWorkerJobFinished`.
The soft-timeout logging goroutine has no observable effect and is
omitted. -/
def Pool.workJob (p : Pool) (job : Job) : Job × Pool :=
  let executed := jobExecutedOf job.f
  let jobErr := jobErrOf job.f
  let job1 := { job with duration := job.f.elapsed }
  p.setWorkerJobFinished job1 executed jobErr

/-- Model of one round of the feeder goroutine plus the workers between
`StartRound` and `Wait`: each submitted job is fed exactly once (appended
to `JobsAll`) and worked exactly once. The final (post-mutation) job
record is stored in `JobsAll`, matching what a reader observes after
`Wait` through the shared pointer. -/
def Pool.runRoundJobs : Pool → List Job → Pool
  | p, [] => p
  | p, job :: rest =>
    let r := p.workJob job
    Pool.runRoundJobs { r.2 with jobsAll := r.2.jobsAll ++ [r.1] } rest

/-- Model of `Pool.Wait` from pool.go. The Go method panics when
`roundStarted` is false (modelled as `none`); otherwise it clears
`roundStarted`, drains the round and returns `p.JobsErrored == nil`. -/
def Pool.wait (p : Pool) : Option (Bool × Pool) :=
  if !p.roundStarted then none
  else some (decide (p.jobsErrored = []), { p with roundStarted := false })

/-- Model of `Pool.JobErrors` from pool.go: nil when no job errored,
otherwise the slice holding each errored job's `Err`. -/
def Pool.jobErrors (p : Pool) : Option (List (Option String)) :=
  if p.jobsErrored.length < 1 then none
  else some (p.jobsErrored.map Job.err)

/-- A full round on a fresh pool: `StartRound(0)`, submission of the named
work functions via `NewJob`, then `Wait`. -/
def runRound (specs : List (String × JobF)) : Option (Bool × Pool) :=
  (newPool.startRound 0).bind fun p =>
    (p.runRoundJobs (specs.map fun nf => NewJob nf.1 nf.2)).wait

/-- Final record of a freshly submitted job after its worker finished it. -/
def runJob (nf : String × JobF) : Job :=
  ⟨nf.2.elapsed, jobErrOf nf.2, jobExecutedOf nf.2, nf.2, nf.1⟩

/-- Jobs of a round in submission order, as final records. -/
def roundJobs (specs : List (String × JobF)) : List Job :=
  specs.map runJob

/-- Errored jobs of a round in submission order. -/
def erroredJobs (specs : List (String × JobF)) : List Job :=
  (roundJobs specs).filter fun j => j.err.isSome

/-- Executed jobs of a round in submission order. -/
def executedJobs (specs : List (String × JobF)) : List Job :=
  (roundJobs specs).filter fun j => j.executed

/-- Pool state after a full round on a fresh pool. -/
def finalPool (specs : List (String × JobF)) : Pool :=
  ⟨roundJobs specs, erroredJobs specs, executedJobs specs, false, 0⟩

theorem workJob_newJob (p : Pool) (nf : String × JobF) :
    p.workJob (NewJob nf.1 nf.2) =
      (runJob nf,
        { p with
          jobsErrored :=
            if (jobErrOf nf.2).isSome then p.jobsErrored ++ [runJob nf] else p.jobsErrored,
          jobsExecuted :=
            if jobExecutedOf nf.2 then p.jobsExecuted ++ [runJob nf] else p.jobsExecuted }) := by
  unfold Pool.workJob Pool.setWorkerJobFinished NewJob runJob
  rcases h : jobErrOf nf.2 with _ | e <;>
    rcases h2 : jobExecutedOf nf.2 <;>
      simp [h, h2]

theorem runRoundJobs_spec (specs : List (String × JobF)) (p : Pool) :
    p.runRoundJobs (specs.map fun nf => NewJob nf.1 nf.2) =
      { p with
        jobsAll := p.jobsAll ++ roundJobs specs,
        jobsErrored := p.jobsErrored ++ erroredJobs specs,
        jobsExecuted := p.jobsExecuted ++ executedJobs specs } := by
  induction specs generalizing p with
  | nil => simp [Pool.runRoundJobs, roundJobs, erroredJobs, executedJobs]
  | cons nf rest ih =>
    simp only [List.map_cons, Pool.runRoundJobs, workJob_newJob]
    rw [ih]
    simp only [roundJobs, erroredJobs, executedJobs, List.map_cons, List.filter_cons]
    rcases h : (runJob nf).err.isSome <;> rcases h2 : (runJob nf).executed <;>
      simp_all [runJob, List.append_assoc]

theorem runRound_eq (specs : List (String × JobF)) :
    runRound specs = some (decide (erroredJobs specs = []), finalPool specs) := by
  have hs : newPool.startRound 0 = some ⟨[], [], [], true, 0⟩ := rfl
  unfold runRound
  rw [hs]
  simp only [Option.some_bind, runRoundJobs_spec]
  simp [Pool.wait, finalPool]

theorem map_filter_comm {α β : Type} (f : α → β) (p : β → Bool) (l : List α) :
    (l.map f).filter p = (l.filter fun a => p (f a)).map f := by
  induction l with
  | nil => rfl
  | cons a l ih =>
    simp only [List.map_cons, List.filter_cons]
    rcases h : p (f a) <;> simp [h, ih]

theorem erroredJobs_nil_iff (specs : List (String × JobF)) :
    erroredJobs specs = [] ↔ ∀ nf ∈ specs, (runJob nf).err = none := by
  unfold erroredJobs roundJobs
  rw [List.filter_eq_nil_iff]
  constructor
  · intro h nf hm
    have := h (runJob nf) (List.mem_map_of_mem _ hm)
    simpa using this
  · intro h j hj
    obtain ⟨nf, hm, rfl⟩ := List.mem_map.mp hj
    simp [h nf hm]

/-- C1: for a round opened with StartRound and finished with Wait, Wait
returns true iff no job of the round recorded a non-nil error; JobErrors is
nil exactly when no job errored, and when some job errored Wait returns false
and JobErrors holds exactly one underlying error per errored job (the Err of
each errored job, with matching cardinality). -/
theorem wait_true_iff_no_job_errored (specs : List (String × JobF)) :
    ∃ ok p, runRound specs = some (ok, p) ∧
      p.jobsErrored = (specs.map runJob).filter (fun j => j.err.isSome) ∧
      (ok = true ↔ ∀ nf ∈ specs, (runJob nf).err = none) ∧
      (ok = true ↔ p.jobsErrored = []) ∧
      (p.jobErrors = none ↔ p.jobsErrored = []) ∧
      (p.jobsErrored ≠ [] →
        ok = false ∧
        p.jobErrors = some (p.jobsErrored.map Job.err) ∧
        (p.jobsErrored.map Job.err).length = p.jobsErrored.length) := by
  refine ⟨_, _, runRound_eq specs, rfl, ?_, ?_, ?_, ?_⟩
  · rw [decide_eq_true_iff]
    exact (erroredJobs_nil_iff specs).trans (by rfl)
  · rw [decide_eq_true_iff]
    exact Iff.rfl
  · show Pool.jobErrors _ = none ↔ _
    unfold Pool.jobErrors
    by_cases h : erroredJobs specs = []
    · simp [finalPool, h]
    · have : 1 ≤ (erroredJobs specs).length := by
        have := List.length_pos.mpr h
        omega
      simp only [finalPool]
      rw [if_neg (by omega)]
      simp [h]
  · intro h
    have h1 : (erroredJobs specs = []) = False := by
      simp only [finalPool] at h
      simp [h]
    refine ⟨by simp [h1], ?_, by simp⟩
    show Pool.jobErrors _ = _
    unfold Pool.jobErrors
    simp only [finalPool] at h ⊢
    have : 1 ≤ (erroredJobs specs).length := by
      have := List.length_pos.mpr h
      omega
    rw [if_neg (by omega)]

/-- C1 witness: a concrete round with one erroring job, instantiating the
claim theorem. -/
def werrmsg : String := "boom"

theorem wait_true_iff_witness :
    ∃ ok p,
      runRound [(werrmsg, ⟨.ret true (some werrmsg), 1⟩)] = some (ok, p) ∧
      p.jobsErrored =
        ([(werrmsg, (⟨.ret true (some werrmsg), 1⟩ : JobF))].map runJob).filter
          (fun j => j.err.isSome) ∧
      (ok = true ↔
        ∀ nf ∈ [(werrmsg, (⟨.ret true (some werrmsg), 1⟩ : JobF))], (runJob nf).err = none) ∧
      (ok = true ↔ p.jobsErrored = []) ∧
      (p.jobErrors = none ↔ p.jobsErrored = []) ∧
      (p.jobsErrored ≠ [] →
        ok = false ∧
        p.jobErrors = some (p.jobsErrored.map Job.err) ∧
        (p.jobsErrored.map Job.err).length = p.jobsErrored.length) :=
  wait_true_iff_no_job_errored [(werrmsg, ⟨.ret true (some werrmsg), 1⟩)]

/-- C3: every submitted job appears exactly once in JobsAll (JobsAll is the
list of final records of the submitted jobs in submission order), JobsExecuted
and JobsErrored are sublists of it, and when no job errors and exactly M jobs
report didWork=true the counts after Wait are N, M and 0 and Wait returns
true. -/
theorem round_collections_accounting (specs : List (String × JobF)) :
    ∃ ok p, runRound specs = some (ok, p) ∧
      p.jobsAll = specs.map runJob ∧
      p.jobsAll.length = specs.length ∧
      p.jobsExecuted.Sublist p.jobsAll ∧
      p.jobsErrored.Sublist p.jobsAll ∧
      ((∀ nf ∈ specs, (runJob nf).err = none) →
        p.jobsErrored.length = 0 ∧
        p.jobsExecuted.length = (specs.filter fun nf => (runJob nf).executed).length ∧
        ok = true) := by
  refine ⟨_, _, runRound_eq specs, rfl, by simp [finalPool, roundJobs], ?_, ?_, ?_⟩
  · exact List.filter_sublist _
  · exact List.filter_sublist _
  · intro h
    refine ⟨?_, ?_, ?_⟩
    · have := (erroredJobs_nil_iff specs).mpr h
      simp [finalPool, this]
    · show (executedJobs specs).length = _
      unfold executedJobs roundJobs
      rw [map_filter_comm]
      simp
    · rw [decide_eq_true_iff]
      exact (erroredJobs_nil_iff specs).mpr h

/-- C3 witness: a concrete three-job round (two did work, none errored)
instantiating the claim theorem and discharging its hypothesis. -/
def wjobsC3 : List (String × JobF) :=
  [(werrmsg, ⟨.ret true none, 1⟩), (werrmsg, ⟨.ret true none, 2⟩),
   (werrmsg, ⟨.ret false none, 3⟩)]

theorem round_collections_witness :
    ∃ ok p, runRound wjobsC3 = some (ok, p) ∧
      p.jobsAll = wjobsC3.map runJob ∧
      p.jobsAll.length = wjobsC3.length ∧
      p.jobsExecuted.Sublist p.jobsAll ∧
      p.jobsErrored.Sublist p.jobsAll ∧
      ((∀ nf ∈ wjobsC3, (runJob nf).err = none) →
        p.jobsErrored.length = 0 ∧
        p.jobsExecuted.length = (wjobsC3.filter fun nf => (runJob nf).executed).length ∧
        ok = true) :=
  round_collections_accounting wjobsC3

/-- C2: a job whose work function panics is recorded with the structured
error message (the panic tag followed by the panic error message or the
formatted panic value), is recorded not executed regardless of any work done
before the panic, has its duration recorded, appears among the errored jobs
and not among the executed jobs, and the round still completes. -/
theorem panicked_job_recorded (specs : List (String × JobF))
    (nf : String × JobF) (h : nf ∈ specs) (m : String)
    (hp : nf.2.run = .panicErr m ∨ nf.2.run = .panicStr m) :
    (runJob nf).err = some (jobPanickedTag ++ m) ∧
    (runJob nf).executed = false ∧
    (runJob nf).duration = nf.2.elapsed ∧
    ∃ ok p, runRound specs = some (ok, p) ∧
      runJob nf ∈ p.jobsAll ∧
      runJob nf ∈ p.jobsErrored ∧
      runJob nf ∉ p.jobsExecuted := by
  have herr : (runJob nf).err = some (jobPanickedTag ++ m) := by
    rcases hp with hp | hp <;> simp [runJob, jobErrOf, hp]
  have hex : (runJob nf).executed = false := by
    rcases hp with hp | hp <;> simp [runJob, jobExecutedOf, hp]
  refine ⟨herr, hex, rfl, _, _, runRound_eq specs, ?_, ?_, ?_⟩
  · exact List.mem_map_of_mem _ h
  · show runJob nf ∈ erroredJobs specs
    refine List.mem_filter.mpr ⟨List.mem_map_of_mem _ h, ?_⟩
    simp [herr]
  · show runJob nf ∉ executedJobs specs
    intro hmem
    have := (List.mem_filter.mp hmem).2
    rw [hex] at this
    exact Bool.false_ne_true this

/-- C2 witness: a concrete round whose only job panics with an error value,
instantiating the claim theorem and discharging its hypotheses. -/
theorem panicked_job_witness :
    (runJob (werrmsg, ⟨.panicErr werrmsg, 7⟩)).err =
        some (jobPanickedTag ++ werrmsg) ∧
    (runJob (werrmsg, ⟨.panicErr werrmsg, 7⟩)).executed = false ∧
    (runJob (werrmsg, ⟨.panicErr werrmsg, 7⟩)).duration =
        (⟨.panicErr werrmsg, 7⟩ : JobF).elapsed ∧
    ∃ ok p, runRound [(werrmsg, ⟨.panicErr werrmsg, 7⟩)] = some (ok, p) ∧
      runJob (werrmsg, ⟨.panicErr werrmsg, 7⟩) ∈ p.jobsAll ∧
      runJob (werrmsg, ⟨.panicErr werrmsg, 7⟩) ∈ p.jobsErrored ∧
      runJob (werrmsg, ⟨.panicErr werrmsg, 7⟩) ∉ p.jobsExecuted :=
  panicked_job_recorded [(werrmsg, ⟨.panicErr werrmsg, 7⟩)]
    (werrmsg, ⟨.panicErr werrmsg, 7⟩) (by simp) werrmsg (Or.inl rfl)

/-- C7 (code bug): the claim, and the doc comment on Wait in pool.go, say a
second Wait on an already finished round falls through as a safe no-op, but
the code panics: Wait sets roundStarted to false, and a Wait call that finds
roundStarted false executes its panic branch (modelled as none). -/
theorem second_wait_panics_not_noop (specs : List (String × JobF)) (ok : Bool)
    (p : Pool) (h : runRound specs = some (ok, p)) : p.wait = none := by
  have := runRound_eq specs
  rw [h] at this
  have hp : p = finalPool specs := congrArg Prod.snd (Option.some.inj this)
  rw [hp]
  rfl

/-- C7 witness: after an empty round finishes, a second Wait call hits the
panic branch. -/
theorem second_wait_panics_witness : (finalPool []).wait = none :=
  second_wait_panics_not_noop [] true (finalPool []) (by decide)

/-- C10: Job.Error panics exactly when the Err field is nil and otherwise
returns the message of Err; every member of JobsErrored after a round has a
non-nil Err, so Error called on a member of JobsErrored never reaches its
panic branch. -/
theorem errorCall_safe_on_jobsErrored :
    (∀ j : Job, j.errorCall = .panicked ↔ j.err = none) ∧
    (∀ j : Job, ∀ e, j.err = some e → j.errorCall = .message e) ∧
    (∀ specs ok p, runRound specs = some (ok, p) →
      ∀ j ∈ p.jobsErrored,
        j.errorCall ≠ .panicked ∧ ∃ e, j.err = some e ∧ j.errorCall = .message e) := by
  refine ⟨?_, ?_, ?_⟩
  · intro j
    rcases j with ⟨d, e, x, f, n⟩
    rcases e with _ | e <;> simp [Job.errorCall]
  · intro j e he
    simp [Job.errorCall, he]
  · intro specs ok p h j hj
    have := runRound_eq specs
    rw [h] at this
    have hp : p = finalPool specs := congrArg Prod.snd (Option.some.inj this)
    subst hp
    have hmem : j ∈ erroredJobs specs := hj
    have hsome := (List.mem_filter.mp hmem).2
    rcases he : j.err with _ | e
    · rw [he] at hsome
      simp at hsome
    · refine ⟨?_, e, rfl, by simp [Job.errorCall, he]⟩
      simp [Job.errorCall, he]

/-- C10 witness: instantiates the claim theorem on a one-job errored round. -/
theorem errorCall_safe_witness :
    Job.errorCall (runJob (werrmsg, ⟨.ret true (some werrmsg), 1⟩)) ≠ .panicked :=
  (errorCall_safe_on_jobsErrored.2.2 [(werrmsg, ⟨.ret true (some werrmsg), 1⟩)]
    false (finalPool [(werrmsg, ⟨.ret true (some werrmsg), 1⟩)]) (by decide)
    (runJob (werrmsg, ⟨.ret true (some werrmsg), 1⟩)) (by decide)).1

/-! ## Change tracker (context package: FileModTimeCache, Context) -/

/-- Result of an os.Stat call on a path: success with a modification time,
a failure satisfying os.IsNotExist, or a failure with any other error. -/
inductive StatRes where
  | ok (modTime : Int)
  | notExist
  | otherErr
deriving DecidableEq, Repr

/-- Lookup in the pathToModTimeMap map, modelled as an association list. -/
def lookupMod : List (String × Int) → String → Option Int
  | [], _ => none
  | (k, v) :: rest, path => if k = path then some v else lookupMod rest path

/-- Map store `c.pathToModTimeMap[path] = modTime`. -/
def insertMod : List (String × Int) → String → Int → List (String × Int)
  | [], path, mt => [(path, mt)]
  | (k, v) :: rest, path, mt =>
    if k = path then (k, mt) :: rest else (k, v) :: insertMod rest path mt

/-- Model of FileModTimeCache: the path to last observed modification time
map. The logger and the mutex (the critical section is atomic here by
construction) are omitted. -/
structure FileModTimeCache where
  pathToModTimeMap : List (String × Int)
deriving DecidableEq, Repr

/-- Model of FileModTimeCache.changed. On a stat failure it returns true (for
a non-IsNotExist failure after logging); on success it reads the previously
recorded time, stores the newly observed time unconditionally, reports
changed on first sight, and otherwise reports whether the previous time is
strictly before the new one (lastModTime.Before(modTime)). -/
def FileModTimeCache.changed (c : FileModTimeCache) (path : String)
    (stat : StatRes) : Bool × FileModTimeCache :=
  match stat with
  | .notExist => (true, c)
  | .otherErr => (true, c)
  | .ok modTime =>
    let lastModTime := lookupMod c.pathToModTimeMap path
    let c2 : FileModTimeCache := ⟨insertMod c.pathToModTimeMap path modTime⟩
    match lastModTime with
    | none => (true, c2)
    | some last => (decide (last < modTime), c2)

/-- Model of Context.exists: a successful stat means true; an error
satisfying os.IsNotExist means false; any other stat error is logged and the
function falls through to its final return false. -/
def contextExists (stat : StatRes) : Bool :=
  match stat with
  | .ok _ => true
  | .notExist => false
  | .otherErr => false

/-- Model of Context.Changed: when the exists check fails the result is
false without consulting the cache; otherwise the result is delegated to
FileModTimeCache.changed. The filesystem is an oracle from paths to stat
results, so both stat calls of the Go code observe the same answer. The
filepath.Abs normalization and the addWatched registration are I/O side
effects with no influence on the returned value and are omitted (paths are
taken as already normalized). -/
def contextChanged (fs : String → StatRes) (cache : FileModTimeCache)
    (path : String) : Bool × FileModTimeCache :=
  if contextExists (fs path) = false then (false, cache)
  else cache.changed path (fs path)

theorem lookupMod_insertMod (m : List (String × Int)) (path : String) (mt : Int) :
    lookupMod (insertMod m path mt) path = some mt := by
  induction m with
  | nil => simp [insertMod, lookupMod]
  | cons kv rest ih =>
    rcases kv with ⟨k, v⟩
    by_cases h : k = path <;> simp [insertMod, lookupMod, h, ih]

/-- C4: a check of an existing path always stores the newly observed
modification time as the new baseline; the first check of the path reports
changed, and every later check reports changed exactly when the previously
recorded time is strictly before the newly observed one, so an equal
timestamp reports unchanged. -/
theorem modTimeCache_check_and_update (c : FileModTimeCache) (path : String)
    (mt : Int) :
    lookupMod ((c.changed path (.ok mt)).2).pathToModTimeMap path = some mt ∧
    (lookupMod c.pathToModTimeMap path = none →
      (c.changed path (.ok mt)).1 = true) ∧
    (∀ prev, lookupMod c.pathToModTimeMap path = some prev →
      (c.changed path (.ok mt)).1 = decide (prev < mt)) := by
  refine ⟨?_, ?_, ?_⟩
  · unfold FileModTimeCache.changed
    rcases h : lookupMod c.pathToModTimeMap path with _ | prev <;>
      simp [h, lookupMod_insertMod]
  · intro h
    simp [FileModTimeCache.changed, h]
  · intro prev h
    simp [FileModTimeCache.changed, h]

/-- Path constant used by concrete checks. -/
def wpath : String := "a/path"

/-- C4 witness: a cache that already recorded time 5 for the path, checked
again with an equal observed time 5, reports unchanged and keeps 5 as the
stored baseline. -/
theorem modTimeCache_check_witness :
    lookupMod ((FileModTimeCache.changed ⟨[(wpath, 5)]⟩ wpath
        (.ok 5)).2).pathToModTimeMap wpath = some 5 ∧
    (FileModTimeCache.changed ⟨[(wpath, 5)]⟩ wpath (.ok 5)).1 =
      decide ((5 : Int) < 5) :=
  ⟨(modTimeCache_check_and_update ⟨[(wpath, 5)]⟩ wpath 5).1,
   (modTimeCache_check_and_update ⟨[(wpath, 5)]⟩ wpath 5).2.2 5 (by decide)⟩

/-- Filesystem oracle on which every stat call fails with an error that does
not satisfy os.IsNotExist. -/
def fsOtherErr : String → StatRes := fun _ => .otherErr

/-- Filesystem oracle on which no path exists. -/
def fsNotExist : String → StatRes := fun _ => .notExist

/-- C8 counterexample: on a path whose stat fails for a reason other than
nonexistence, Context.Changed reports false, not the conservative true the
claim states: the exists guard logs the failure and reports nonexistence
before the conservative branch of the cache can run. -/
theorem changed_stat_error_counterexample :
    fsOtherErr wpath = .otherErr ∧
    (contextChanged fsOtherErr ⟨[]⟩ wpath).1 = false ∧
    ¬ (contextChanged fsOtherErr ⟨[]⟩ wpath).1 = true := by
  refine ⟨rfl, rfl, ?_⟩
  decide

/-- C8 (amended): Context.Changed reports false without error on a
nonexistent path, and also reports false when the stat fails for any other
reason, because the exists guard logs that failure and treats the path as
missing; the conservative report-changed-on-stat-failure policy lives one
layer down in FileModTimeCache.changed, which reports true on any stat
failure. -/
theorem changed_nonexistent_and_stat_error (fs : String → StatRes)
    (cache : FileModTimeCache) (path : String) :
    (fs path = .notExist → contextChanged fs cache path = (false, cache)) ∧
    (fs path = .otherErr → contextChanged fs cache path = (false, cache)) ∧
    cache.changed path .otherErr = (true, cache) ∧
    cache.changed path .notExist = (true, cache) := by
  refine ⟨?_, ?_, rfl, rfl⟩ <;> intro h <;> simp [contextChanged, contextExists, h]

/-- C8 witness: concrete nonexistent-path and failing-stat checks through
the amended claim theorem. -/
theorem changed_nonexistent_witness :
    contextChanged fsNotExist ⟨[]⟩ wpath = (false, ⟨[]⟩) ∧
    contextChanged fsOtherErr ⟨[]⟩ wpath = (false, ⟨[]⟩) :=
  ⟨(changed_nonexistent_and_stat_error fsNotExist ⟨[]⟩ wpath).1 rfl,
   (changed_nonexistent_and_stat_error fsOtherErr ⟨[]⟩ wpath).2.1 rfl⟩

/-! ## Watch loop (watch.go) -/

/-- fsnotify operation bitmask, one flag per fsnotify.Op bit. -/
structure Op where
  create : Bool
  remove : Bool
  write : Bool
  rename : Bool
  chmod : Bool
deriving DecidableEq, Repr

def opCreate : Op := ⟨true, false, false, false, false⟩

def opRemove : Op := ⟨false, true, false, false, false⟩

def opWrite : Op := ⟨false, false, true, false, false⟩

def opRename : Op := ⟨false, false, false, true, false⟩

def opChmod : Op := ⟨false, false, false, false, true⟩

def emptyStr : String := ""

def dotStr : String := "."

def slashStr : String := "/"

def dsStoreName : String := ".DS_Store"

def vimProbeName : String := "4913"

def backupMark : String := "~"

/-- Model of strings.HasSuffix via character lists. -/
def hasSuffix (s post : String) : Bool :=
  post.data.reverse.isPrefixOf s.data.reverse

/-- Model of filepath.Base for slash-separated paths: the empty path gives
".", trailing separators are dropped, the part after the last separator is
returned, and an all-separator path gives "/". -/
def filepathBase (path : String) : String :=
  if path = emptyStr then dotStr
  else
    let p := (path.data.reverse.dropWhile fun c => c = '/').reverse
    let b := (p.reverse.takeWhile fun c => ¬ (c = '/')).reverse
    if b = [] then slashStr else String.mk b

/-- Model of shouldRebuild from watch.go: .DS_Store, the Vim probe file 4913
and backup-suffixed basenames are ineligible; otherwise create, remove and
write events rebuild and everything else (chmod, a bare rename) does not. -/
def shouldRebuild (path : String) (op : Op) : Bool :=
  let base := filepathBase path
  if base = dsStoreName then false
  else if base = vimProbeName then false
  else if hasSuffix base backupMark then false
  else if op.create then true
  else if op.remove then true
  else if op.write then true
  else false

/-- The 100 millisecond same-file quiesce window from watch.go, in the
millisecond time unit of this model. -/
def sameFileQuiesceTime : Int := 100

/-- Model of buildWithinSameFileQuiesce from watch.go: false when the
comparison set is nil, false when more than the quiesce window has passed
since the last rebuild, then a length fast path followed by deep equality,
which on string-keyed sets is set equality. -/
def buildWithinSameFileQuiesce (lastRebuild now : Int)
    (changedSources : Finset String)
    (lastChangedSources : Option (Finset String)) : Bool :=
  match lastChangedSources with
  | none => false
  | some lcs =>
    if now - sameFileQuiesceTime > lastRebuild then false
    else if lcs.card ≠ changedSources.card then false
    else decide (lcs = changedSources)

/-- State of the watchChanges loop between reactions: whether the loop sits
in INNER_LOOP waiting for a rebuildDone acknowledgment, the changedSources
and lastChangedSources variables (nil maps are none), and the lastRebuild
time. A map from path to struct presence is a finite set of paths. -/
structure WatchState where
  awaiting : Bool
  changedSources : Option (Finset String)
  lastChangedSources : Option (Finset String)
  lastRebuild : Int
deriving DecidableEq

/-- Input consumed by the watchChanges loop: a filesystem event from the
watcher (tagged with the time at which the loop processes it) or a
rebuildDone acknowledgment from the orchestrator (likewise tagged). Watcher
errors only produce a log line and closed channels only end the loop, so
neither is modelled. -/
inductive WatchInput where
  | fsEv (name : String) (op : Op) (now : Int)
  | rebuildDone (now : Int)
deriving DecidableEq

/-- Number of entries of a possibly-nil map. -/
def optCard : Option (Finset String) → Nat
  | none => 0
  | some s => s.card

/-- The accumulation step of INNER_LOOP: a nil pending map is allocated
before the event path is inserted. -/
def insertPending (name : String) (pending : Option (Finset String)) :
    Finset String :=
  match pending with
  | none => {name}
  | some s => insert name s

/-- Head of the inner build for loop of watchChanges: when fewer than one
change is pending the loop breaks back to the outer select; when the
same-file quiesce rule fires the loop also breaks, keeping changedSources;
otherwise lastRebuild is set to now, the changed set is emitted on the
rebuild channel, lastChangedSources keeps the emitted set, changedSources is
zeroed and the loop enters INNER_LOOP to await the acknowledgment. -/
def tryBuild (changed lastChanged : Option (Finset String))
    (lastRebuild now : Int) : WatchState × List (Finset String) :=
  match changed with
  | none => (⟨false, none, lastChanged, lastRebuild⟩, [])
  | some cs =>
    if cs.card < 1 then (⟨false, some cs, lastChanged, lastRebuild⟩, [])
    else if buildWithinSameFileQuiesce lastRebuild now cs lastChanged then
      (⟨false, some cs, lastChanged, lastRebuild⟩, [])
    else (⟨true, none, some cs, now⟩, [cs])

/-- One reaction of the watchChanges loop to an input, as a step function
whose second component lists the rebuild signals emitted during the
reaction. In the idle state (the outer select) an event first saves
changedSources into lastChangedSources and replaces changedSources with the
singleton of the event path, exactly as the outer select does before its
eligibility check; an eligible event then runs the build loop head and an
ineligible one continues the outer select. In the awaiting state
(INNER_LOOP) an eligible event is accumulated into the pending set, an
ineligible one is ignored, and a rebuildDone acknowledgment breaks
INNER_LOOP and re-runs the build loop head on the accumulated set. The
orchestrator only acknowledges after a signal, so a rebuildDone in the idle
state cannot occur and is modelled as a no-op. -/
def watchStep (st : WatchState) (inp : WatchInput) :
    WatchState × List (Finset String) :=
  if st.awaiting then
    match inp with
    | .fsEv name op _ =>
      if shouldRebuild name op then
        (⟨true, some (insertPending name st.changedSources),
          st.lastChangedSources, st.lastRebuild⟩, [])
      else (st, [])
    | .rebuildDone now =>
      tryBuild st.changedSources st.lastChangedSources st.lastRebuild now
  else
    match inp with
    | .fsEv name op now =>
      let lastChanged := st.changedSources
      if shouldRebuild name op then
        tryBuild (some {name}) lastChanged st.lastRebuild now
      else (⟨false, some {name}, lastChanged, st.lastRebuild⟩, [])
    | .rebuildDone _ => (st, [])

/-- The watchChanges loop over a whole input sequence, collecting every
emitted rebuild signal in order. -/
def watchRun (st : WatchState) (inputs : List WatchInput) :
    WatchState × List (Finset String) :=
  match inputs with
  | [] => (st, [])
  | i :: rest =>
    let r := watchStep st i
    let r2 := watchRun r.1 rest
    (r2.1, r.2 ++ r2.2)

/-- State of the loop when watchChanges starts: listening, both source maps
nil, zero lastRebuild time. -/
def watchInit : WatchState := ⟨false, none, none, 0⟩

/-- Ineligible path constant: platform metadata basename. -/
def wpathDS : String := "a/.DS_Store"

/-- Ineligible path constant: the Vim write probe file. -/
def wpathVim : String := "a/4913"

/-- Ineligible path constant: backup-suffixed basename. -/
def wpathBackup : String := "a/path~"

/-- C5 counterexample: after a rebuild signal, an identical eligible event
arrives while the loop awaits acknowledgment, so at the acknowledgment the
pending set is non-empty; yet no new rebuild signal is emitted, because the
same-file quiesce rule also applies to the set accumulated during the
rebuild. -/
theorem ack_nonempty_pending_no_signal :
    ((watchRun watchInit
        [.fsEv wpath opCreate 0, .fsEv wpath opWrite 5]).1).awaiting = true ∧
    ((watchRun watchInit
        [.fsEv wpath opCreate 0, .fsEv wpath opWrite 5]).1).changedSources =
      some {wpath} ∧
    ({wpath} : Finset String) ≠ ∅ ∧
    (watchStep (watchRun watchInit
        [.fsEv wpath opCreate 0, .fsEv wpath opWrite 5]).1
      (.rebuildDone 10)).2 = [] := by
  decide

/-- C5 (amended): while awaiting acknowledgment the loop emits nothing on
incoming events; eligible events accumulate into the pending set and
ineligible ones leave the state unchanged; upon acknowledgment an empty
pending set returns the loop to idle with no signal, and a non-empty pending
set is signaled exactly once carrying exactly the accumulated paths, unless
the same-file quiesce rule suppresses it, in which case nothing is emitted
and the loop returns to idle listening keeping the pending set. -/
theorem awaiting_protocol (st : WatchState) (h : st.awaiting = true) :
    (∀ name op now, (watchStep st (.fsEv name op now)).2 = []) ∧
    (∀ name op now, shouldRebuild name op = false →
      watchStep st (.fsEv name op now) = (st, [])) ∧
    (∀ name op now, shouldRebuild name op = true →
      watchStep st (.fsEv name op now) =
        (⟨true, some (insertPending name st.changedSources),
          st.lastChangedSources, st.lastRebuild⟩, [])) ∧
    (st.changedSources = none → ∀ now,
      watchStep st (.rebuildDone now) =
        (⟨false, none, st.lastChangedSources, st.lastRebuild⟩, [])) ∧
    (∀ cs now, st.changedSources = some cs → 1 ≤ cs.card →
      (buildWithinSameFileQuiesce st.lastRebuild now cs st.lastChangedSources = false →
        watchStep st (.rebuildDone now) = (⟨true, none, some cs, now⟩, [cs])) ∧
      (buildWithinSameFileQuiesce st.lastRebuild now cs st.lastChangedSources = true →
        watchStep st (.rebuildDone now) =
          (⟨false, some cs, st.lastChangedSources, st.lastRebuild⟩, []))) := by
  rcases st with ⟨aw, pcs, lcs, lr⟩
  simp only [WatchState.awaiting] at h
  subst h
  refine ⟨?_, ?_, ?_, ?_, ?_⟩
  · intro name op now
    rcases hsr : shouldRebuild name op <;> simp [watchStep, hsr]
  · intro name op now hsr
    simp [watchStep, hsr]
  · intro name op now hsr
    simp [watchStep, hsr]
  · intro hcs now
    simp only [WatchState.changedSources] at hcs
    subst hcs
    simp [watchStep, tryBuild]
  · intro cs now hcs hcard
    simp only [WatchState.changedSources] at hcs
    subst hcs
    have h1 : ¬ cs.card < 1 := by omega
    constructor <;> intro hq <;> simp [watchStep, tryBuild, hq, h1]

/-- Awaiting state used by the C5 witness: a signal for the path just went
out at time 0 and the identical path accumulated during the rebuild. -/
def wstAwait : WatchState := ⟨true, some {wpath}, some {wpath}, 0⟩

/-- C5 witness: the amended claim theorem applied at a concrete awaiting
state, quiesce-suppressed acknowledgment branch. -/
theorem awaiting_protocol_witness :
    watchStep wstAwait (.rebuildDone 10) =
      (⟨false, some {wpath}, some {wpath}, 0⟩, []) :=
  ((awaiting_protocol wstAwait rfl).2.2.2.2 {wpath} 10 rfl (by decide)).2 (by decide)

/-- C6 counterexample: the set about to be signaled at time 50 is identical
to the set signaled by the previous rebuild at time 0, well within the 100ms
quiesce window, yet it is signaled again: the outer select overwrote the
comparison set with the stale nil pending value at the new event, so the
suppression cannot fire on this path. -/
theorem identical_set_within_window_resignaled :
    (watchRun watchInit
      [.fsEv wpath opCreate 0, .rebuildDone 10, .fsEv wpath opCreate 50]).2 =
      [{wpath}, {wpath}] ∧
    ¬ ((50 : Int) - sameFileQuiesceTime > 0) := by
  refine ⟨by decide, by decide⟩

/-- C6 (amended): suppression is decided against lastChangedSources as the
loop maintains it, not against the set signaled by the previous rebuild: a
candidate set about to be signaled is suppressed exactly when
lastChangedSources is the same non-nil set and no more than the quiesce
window has passed since the last rebuild; otherwise (different set, window
elapsed, or nil comparison set as after an idle acknowledgment) the
candidate is signaled exactly once. -/
theorem quiesce_suppression_exact (lastRebuild now : Int) (cs : Finset String)
    (lastChanged : Option (Finset String)) (h : 1 ≤ cs.card) :
    ((tryBuild (some cs) lastChanged lastRebuild now).2 = [] ↔
      buildWithinSameFileQuiesce lastRebuild now cs lastChanged = true) ∧
    (buildWithinSameFileQuiesce lastRebuild now cs lastChanged = true ↔
      (lastChanged = some cs ∧ now ≤ lastRebuild + sameFileQuiesceTime)) ∧
    (buildWithinSameFileQuiesce lastRebuild now cs lastChanged = false →
      (tryBuild (some cs) lastChanged lastRebuild now).2 = [cs]) := by
  have hlt : ¬ cs.card < 1 := by omega
  refine ⟨?_, ?_, ?_⟩
  · rcases hq : buildWithinSameFileQuiesce lastRebuild now cs lastChanged <;>
      simp [tryBuild, hlt, hq]
  · rcases lastChanged with _ | lcs
    · simp [buildWithinSameFileQuiesce]
    · simp only [buildWithinSameFileQuiesce, Option.some.injEq]
      by_cases ht : now - sameFileQuiesceTime > lastRebuild
      · rw [if_pos ht]
        constructor
        · intro hf
          exact absurd hf (by simp)
        · intro hrhs
          exact absurd hrhs.2 (by omega)
      · rw [if_neg ht]
        by_cases hcc : lcs.card ≠ cs.card
        · have hne : ¬ lcs = cs := fun he => hcc (by rw [he])
          rw [if_pos hcc]
          constructor
          · intro hf
            exact absurd hf (by simp)
          · intro hrhs
            exact absurd hrhs.1 hne
        · rw [if_neg hcc]
          rw [decide_eq_true_iff]
          constructor
          · intro he
            exact ⟨he, by omega⟩
          · intro hrhs
            exact hrhs.1
  · intro hq
    simp [tryBuild, hlt, hq]

/-- C6 witness: the amended claim theorem applied at a concrete suppressed
duplicate (identical set, 10ms after the last rebuild) and at a concrete
emitted set (nil comparison set). -/
theorem quiesce_suppression_witness :
    buildWithinSameFileQuiesce 0 10 {wpath} (some {wpath}) = true ∧
    (tryBuild (some {wpath}) (some {wpath}) 0 10).2 = [] ∧
    (tryBuild (some {wpath}) none 0 50).2 = [{wpath}] := by
  refine ⟨?_, ?_, ?_⟩
  · exact (quiesce_suppression_exact 0 10 {wpath} (some {wpath})
      (by decide)).2.1.mpr ⟨rfl, by decide⟩
  · exact (quiesce_suppression_exact 0 10 {wpath} (some {wpath})
      (by decide)).1.mpr ((quiesce_suppression_exact 0 10 {wpath}
        (some {wpath}) (by decide)).2.1.mpr ⟨rfl, by decide⟩)
  · exact (quiesce_suppression_exact 0 50 {wpath} none (by decide)).2.2 (by decide)

/-- C9 counterexample: an eligible create event received in the idle state
(reached after a suppressed duplicate left a pending set behind) produces no
rebuild signal, because the quiesce rule also suppresses the idle path. -/
theorem eligible_idle_event_suppressed :
    ((watchRun watchInit
        [.fsEv wpath opCreate 0, .fsEv wpath opWrite 5, .rebuildDone 10]).1).awaiting
      = false ∧
    shouldRebuild wpath opCreate = true ∧
    (watchStep (watchRun watchInit
        [.fsEv wpath opCreate 0, .fsEv wpath opWrite 5, .rebuildDone 10]).1
      (.fsEv wpath opCreate 20)).2 = [] := by
  decide

/-- C9 (amended): an ineligible event (platform metadata basename, editor
probe file, backup suffix, or an operation that is neither create nor remove
nor write, such as a pure chmod) never produces a rebuild signal in any
state; an eligible event received in the idle state produces exactly one
rebuild signal whose set is exactly the event path, unless the same-file
quiesce rule suppresses it, in which case it produces none. -/
theorem idle_event_signaling :
    (∀ st name op now, shouldRebuild name op = false →
      (watchStep st (.fsEv name op now)).2 = []) ∧
    shouldRebuild wpathDS opCreate = false ∧
    shouldRebuild wpathVim opCreate = false ∧
    shouldRebuild wpathBackup opCreate = false ∧
    shouldRebuild wpath opChmod = false ∧
    shouldRebuild wpath opCreate = true ∧
    shouldRebuild wpath opRemove = true ∧
    shouldRebuild wpath opWrite = true ∧
    (∀ st name op now, st.awaiting = false → shouldRebuild name op = true →
      buildWithinSameFileQuiesce st.lastRebuild now {name} st.changedSources = false →
      (watchStep st (.fsEv name op now)).2 = [{name}]) ∧
    (∀ st name op now, st.awaiting = false → shouldRebuild name op = true →
      buildWithinSameFileQuiesce st.lastRebuild now {name} st.changedSources = true →
      (watchStep st (.fsEv name op now)).2 = []) := by
  refine ⟨?_, by decide, by decide, by decide, by decide, by decide, by decide,
    by decide, ?_, ?_⟩
  · intro st name op now hsr
    rcases st with ⟨aw, pcs, lcs, lr⟩
    rcases aw <;> simp [watchStep, hsr]
  · intro st name op now haw hsr hq
    rcases st with ⟨aw, pcs, lcs, lr⟩
    simp only [WatchState.awaiting] at haw
    subst haw
    simp only [WatchState.lastRebuild, WatchState.changedSources] at hq
    have h1 : ¬ (({name} : Finset String).card < 1) := by simp
    simp [watchStep, tryBuild, hsr, hq, h1]
  · intro st name op now haw hsr hq
    rcases st with ⟨aw, pcs, lcs, lr⟩
    simp only [WatchState.awaiting] at haw
    subst haw
    simp only [WatchState.lastRebuild, WatchState.changedSources] at hq
    have h1 : ¬ (({name} : Finset String).card < 1) := by simp
    simp [watchStep, tryBuild, hsr, hq, h1]

/-- C9 witness: the amended claim theorem applied to a single eligible
create event in the initial idle state, which emits exactly one signal with
exactly that path. -/
theorem idle_event_signaling_witness :
    (watchStep watchInit (.fsEv wpath opCreate 0)).2 = [{wpath}] :=
  idle_event_signaling.2.2.2.2.2.2.2.2.1 watchInit wpath opCreate 0 rfl
    (by decide) (by decide)

end Modulir
